import Mathlib

/-!
Verification of the core queueing, source and driver logic of the ngsoftfm
FM demodulator (hayguen/ngsoftfm).

The development shallowly embeds:
- the cross-thread sample queue DataBuffer (src/include/DataBuffer.h);
- the WAV file source WaveFileSource (src/sfmbase/WaveFileSource.cpp);
- the pipeline driver main loop (src/main.cpp).

IQ samples are modelled as pairs of rationals: every floating-point
computation performed by the embedded code paths (scaling of 16/24-bit PCM
by a power of two, float pass-through) is exact in IEEE-754 single
precision, so the rational model is faithful.

Blocking of a thread inside DataBuffer.pull is modelled by the Option
result: none means the caller stays blocked until the state changes.
-/

namespace NgSoftFm

/-- An IQ sample: real and imaginary part, modelled as exact rationals. -/
abbrev IQ : Type := ℚ × ℚ

/-! ## DataBuffer (src/include/DataBuffer.h)

State of the template class: sample counter m_qlen, end flag
m_end_marked, and the FIFO of blocks m_queue.  The mutex and condition
variable serialize the operations; the model exposes the serialized
per-operation semantics. -/

/-- The fields of DataBuffer<Element>. -/
structure DataBuffer (α : Type) where
  m_qlen : Nat
  m_end_marked : Bool
  m_queue : List (List α)
deriving DecidableEq

/-- A DataBuffer as constructed: qlen 0, no end mark, empty queue. -/
def DataBuffer.init (α : Type) : DataBuffer α := ⟨0, false, []⟩

/-- DataBuffer::push: ignore an empty vector, else append the block and add
its size to m_qlen. -/
def DataBuffer.push {α : Type} (b : DataBuffer α) (samples : List α) : DataBuffer α :=
  if samples.isEmpty then b
  else { b with m_qlen := b.m_qlen + samples.length, m_queue := b.m_queue ++ [samples] }

/-- DataBuffer::push_end: set the end marker. -/
def DataBuffer.push_end {α : Type} (b : DataBuffer α) : DataBuffer α :=
  { b with m_end_marked := true }

/-- DataBuffer::queued_samples: return m_qlen. -/
def DataBuffer.queued_samples {α : Type} (b : DataBuffer α) : Nat :=
  b.m_qlen

/-- DataBuffer::pull.  some (block, buf) models a completed pull returning
block with the buffer left in state buf; none models the caller blocking in
m_cond.wait (the while loop runs while the queue is empty and the end is
not marked). -/
def DataBuffer.pull {α : Type} (b : DataBuffer α) : Option (List α × DataBuffer α) :=
  match b.m_queue with
  | blk :: rest =>
      some (blk, { b with m_qlen := b.m_qlen - blk.length, m_queue := rest })
  | [] => if b.m_end_marked then some ([], b) else none

/-- DataBuffer::pull_end_reached: m_qlen == 0 and m_end_marked. -/
def DataBuffer.pull_end_reached {α : Type} (b : DataBuffer α) : Bool :=
  b.m_qlen == 0 && b.m_end_marked

/-- Sum of the sizes of the blocks pending in the queue. -/
def qSizes {α : Type} (b : DataBuffer α) : Nat :=
  (b.m_queue.map List.length).sum

/-- One operation applied to a DataBuffer by either side. -/
inductive QOp (α : Type) where
  | push (samples : List α)
  | push_end
  | pull
deriving DecidableEq

/-- A buffer together with the history of blocks handed to push and of
blocks returned by completed pulls. -/
structure QTrace (α : Type) where
  buf : DataBuffer α
  pushed : List (List α)
  pulled : List (List α)
deriving DecidableEq

/-- The trace of a freshly constructed buffer. -/
def QTrace.init (α : Type) : QTrace α := ⟨DataBuffer.init α, [], []⟩

/-- Apply one operation to a trace.  A pull that would block leaves the
state unchanged (the caller waits; the operation completes in a later
step once it is enabled). -/
def stepOp {α : Type} (t : QTrace α) : QOp α → QTrace α
  | .push s => { buf := t.buf.push s, pushed := t.pushed ++ [s], pulled := t.pulled }
  | .push_end => { t with buf := t.buf.push_end }
  | .pull =>
      match t.buf.pull with
      | some (blk, b2) => { buf := b2, pushed := t.pushed, pulled := t.pulled ++ [blk] }
      | none => t

/-- Run a sequence of operations from the initial trace. -/
def runOps {α : Type} (ops : List (QOp α)) : QTrace α :=
  ops.foldl stepOp (QTrace.init α)

/-- The invariant tying the sample counter, the pending blocks and the
push/pull histories together. -/
def QInv {α : Type} (t : QTrace α) : Prop :=
  t.buf.m_qlen = qSizes t.buf
  ∧ (∀ blk ∈ t.buf.m_queue, blk ≠ [])
  ∧ t.pulled.filter (fun blk => !blk.isEmpty) ++ t.buf.m_queue
      = t.pushed.filter (fun blk => !blk.isEmpty)

/-- Concrete operation sequence used as witness input for the queue claims. -/
def wopsC1 : List (QOp Nat) :=
  [QOp.push [1, 2], QOp.push_end, QOp.pull, QOp.pull]

/-! ## Pipeline driver (src/main.cpp, main loop)

The main loop runs for (block = 0; !stop_flag; block++): it first emits the
one-shot backlog warning when queued_samples exceeds 10 * ifrate, then pulls
a block (exiting on an empty block), decodes it, and delivers the decoded
audio only for block > 0, either into output_buffer (buffered mode,
outputbuf_samples > 0) or directly to the audio output.  After the loop,
only in buffered mode, an end marker is pushed on output_buffer and the
sink thread is joined.

Each loop iteration is driven by what the shared state lets it observe:
the stop flag at the loop head, the queued sample count, and the block
returned by pull.  A run of the loop is a list of such observations. -/

/-- What one main-loop iteration observes of the shared state. -/
structure IterObs where
  stopFlag : Bool
  queued : Nat
  pulled : List IQ
deriving DecidableEq

/-- Externally visible actions of the demod thread. -/
inductive Ev where
  | warn (i : Nat)
  | deliverBuffered (i : Nat)
  | deliverDirect (i : Nat)
  | pushEndAudio
  | joinSink
deriving DecidableEq

/-- The main loop of main(): block counter k, warning flag w, observation
list.  The counter is an unsigned int (32 bits on every platform this code
targets), so the block++ of the for loop wraps modulo 2^32; on the wrapped
iterations the block > 0 delivery test fails again.  Returns the emitted
events and whether the loop exited (as opposed to blocking forever inside
pull once the observations run out). -/
def loopEvs (th ob : Nat) : Nat → Bool → List IterObs → List Ev × Bool
  | _, _, [] => ([], false)
  | k, w, o :: rest =>
      if o.stopFlag then ([], true)
      else
        let warnNow : Bool := !w && decide (th < o.queued)
        let wEvs : List Ev := if warnNow then [Ev.warn k] else []
        if o.pulled.isEmpty then (wEvs, true)
        else
          let dEv : List Ev :=
            if 0 < k then
              [if 0 < ob then Ev.deliverBuffered k else Ev.deliverDirect k]
            else []
          let p := loopEvs th ob ((k + 1) % 4294967296) (w || warnNow) rest
          (wEvs ++ dEv ++ p.1, p.2)

/-- The demod thread: main loop with threshold 10 * ifrate, then (only when
outputbuf_samples > 0) push_end on the audio queue and join of the sink. -/
def mainRun (ifrate ob : Nat) (obs : List IterObs) : List Ev :=
  let p := loopEvs (10 * ifrate) ob 0 false obs
  p.1 ++ (if p.2 && decide (0 < ob) then [Ev.pushEndAudio, Ev.joinSink] else [])

/-- The block index carried by a delivery event, if any. -/
def deliverIdxOf : Ev → Option Nat
  | .deliverBuffered i => some i
  | .deliverDirect i => some i
  | _ => none

/-- Indices of the blocks whose audio was delivered, in order. -/
def deliveredIdx (l : List Ev) : List Nat := l.filterMap deliverIdxOf

/-- Recognizer for the backlog warning event. -/
def isWarnEv : Ev → Bool
  | .warn _ => true
  | _ => false

/-- Number of iterations that pull a nonempty block before the loop exits. -/
def consumed : List IterObs → Nat
  | [] => 0
  | o :: rest =>
      if o.stopFlag then 0
      else if o.pulled.isEmpty then 0
      else consumed rest + 1

/-- Whether the loop exits within the observed run (stop flag seen, or an
empty block pulled). -/
def terminates : List IterObs → Bool
  | [] => false
  | o :: rest =>
      if o.stopFlag then true
      else if o.pulled.isEmpty then true
      else terminates rest

/-- The wrapped counter value of the first reached iteration whose queued
count exceeds the threshold (the warning check runs before pull in the
same iteration; the counter wraps like the unsigned int it models). -/
def firstWarn (th : Nat) : Nat → List IterObs → Option Nat
  | _, [] => none
  | k, o :: rest =>
      if o.stopFlag then none
      else if th < o.queued then some k
      else if o.pulled.isEmpty then none
      else firstWarn th ((k + 1) % 4294967296) rest

/-- The successive values taken by the wrapping unsigned int block counter,
starting at k, over n iterations. -/
def wrapSeq (k : Nat) : Nat → List Nat
  | 0 => []
  | n + 1 => k :: wrapSeq ((k + 1) % 4294967296) n

/-- A run of 2^32 + 1 iterations that each pull a nonempty one-sample
block, with no stop request and no backlog. -/
def longObs : List IterObs :=
  List.replicate 4294967297 ⟨false, 0, [((1 : ℚ), (0 : ℚ))]⟩

/-! ## WaveFileSource (src/sfmbase/WaveFileSource.cpp)

The float computations of the conversion loops are exact in IEEE-754 single
precision: a 16-bit integer times 1/32768, a 24-bit-significand integer
times 1/2147483648 (both scale factors are powers of two) and the float32
pass-through introduce no rounding, so samples are modelled as rationals. -/

/-- The fields waveReadHeader extracts from the WAV header into m_meta. -/
structure WavHeader where
  srate : Nat
  freq : Nat
  bps : Int
  nchan : Int
  nframes : Nat
  fmttag : Int
deriving DecidableEq

/-- Modelled from the spec: the header reader waveReadHeader (waveread.c)
is not among the sources of this repository.  Spec section 6 describes the
WAV input as RIFF/WAVE with format tag 0x0001 or 0x0003, exactly 2
channels and arbitrary sample rate, with format validation done by
configure; the modelled reader therefore reports success (0, below the
error threshold 10) for every extracted header, including one that
declares sample rate 0. -/
def waveReadHeaderRes (_h : WavHeader) : Int := 0

/-- The clamp of the requested block length to [1024, 64*1024] in
WaveFileSource::configure, before rounding down to a multiple of 1024. -/
def clampRaw (block_length : Int) : Int :=
  if block_length < 1024 then 1024
  else if block_length > 64 * 1024 then 64 * 1024
  else block_length

/-- The stored m_block_length: clamped to [1024, 64*1024], then reduced by
its remainder modulo 1024. -/
def clampBlockLength (block_length : Int) : Int :=
  clampRaw block_length - clampRaw block_length % 1024

/-- The state a successful WaveFileSource::configure stores. -/
structure ConfigState where
  inputFmt : Nat
  m_block_length : Int
  m_confFreq : Nat
  m_srate : Nat
  m_file_open : Bool
deriving DecidableEq

/-- WaveFileSource::configure(filename, tune_freq, block_length) after the
file has been opened and the header read returned result readRes with
fields h.  none models every failure path: configure returns false with
the file closed again and m_file_open still false.  The checks mirror the
code: header-read error (result at least 10), channel count, then the
format tag / bits-per-sample chain PCM16, FLOAT32, PCM24.  No check
involves the sample rate. -/
def configure (readRes : Int) (h : WavHeader) (tune_freq : Nat)
    (block_length : Int) : Option ConfigState :=
  if 10 ≤ readRes then none
  else if h.nchan ≠ 2 then none
  else if h.fmttag = 1 ∧ h.bps = 16 then
    some ⟨0, clampBlockLength block_length,
      if 0 < tune_freq then tune_freq else h.freq, h.srate, true⟩
  else if h.fmttag = 3 ∧ h.bps = 32 then
    some ⟨1, clampBlockLength block_length,
      if 0 < tune_freq then tune_freq else h.freq, h.srate, true⟩
  else if h.fmttag = 1 ∧ h.bps = 24 then
    some ⟨2, clampBlockLength block_length,
      if 0 < tune_freq then tune_freq else h.freq, h.srate, true⟩
  else none

/-- A header declaring sample rate 0 with a supported format (stereo PCM16). -/
def hdrRate0 : WavHeader := ⟨0, 96000000, 16, 2, 1000, 1⟩

/-- One PCM24 frame: six bytes, little endian, I bytes then Q bytes. -/
structure Pcm24Frame where
  i0 : Nat
  i1 : Nat
  i2 : Nat
  q0 : Nat
  q1 : Nat
  q2 : Nat
deriving DecidableEq

/-- The int32 value (b2 shifted 24) or (b1 shifted 16) or (b0 shifted 8)
assembled from three little-endian PCM24 bytes, reinterpreted as signed. -/
def pcm24val (b0 b1 b2 : Nat) : Int :=
  if b2 * 16777216 + b1 * 65536 + b0 * 256 < 2147483648 then
    ((b2 * 16777216 + b1 * 65536 + b0 * 256 : Nat) : Int)
  else ((b2 * 16777216 + b1 * 65536 + b0 * 256 : Nat) : Int) - 4294967296

/-- The PCM16 conversion loop: each int16 component scaled by 1/32768. -/
def pcm16conv (frames : List (Int × Int)) : List IQ :=
  frames.map (fun p => ((p.1 : ℚ) / 32768, (p.2 : ℚ) / 32768))

/-- The FLOAT32 conversion loop: the float values of the file are copied
into the IQ samples unchanged. -/
def f32conv (frames : List IQ) : List IQ :=
  frames.map (fun p => p)

/-- The PCM24 conversion loop: each assembled int32 scaled by
1/2147483648. -/
def pcm24conv (frames : List Pcm24Frame) : List IQ :=
  frames.map (fun f =>
    ((pcm24val f.i0 f.i1 f.i2 : ℚ) / 2147483648,
     (pcm24val f.q0 f.q1 f.q2 : ℚ) / 2147483648))

/-- Executable check that a pair of int16 components is in range. -/
def int16InRange (p : Int × Int) : Bool :=
  decide (-32768 ≤ p.1) && decide (p.1 ≤ 32767)
    && decide (-32768 ≤ p.2) && decide (p.2 ≤ 32767)

/-- Executable check that the six PCM24 bytes are bytes. -/
def bytesInRange (f : Pcm24Frame) : Bool :=
  decide (f.i0 < 256) && decide (f.i1 < 256) && decide (f.i2 < 256)
    && decide (f.q0 < 256) && decide (f.q1 < 256) && decide (f.q2 < 256)

/-- Executable check that both parts of an IQ sample lie in [-1, 1]. -/
def iqInRange (q : IQ) : Bool :=
  decide (-1 ≤ q.1) && decide (q.1 ≤ 1) && decide (-1 ≤ q.2) && decide (q.2 ≤ 1)

/-- What WaveFileSource::get_samples did: its return value, whether it
called push_end on the IQ queue, whether it stored m_eof_reached, whether
it modified the error string m_error (it never does), and the sample block
it filled for the caller. -/
structure GetSamplesRes where
  retval : Bool
  pushedEnd : Bool
  eofSet : Bool
  errorChanged : Bool
  block : Option (List IQ)
deriving DecidableEq

/-- The vector after samples->resize(m_block_length) on the empty
(moved-from) vector and the conversion of the numRead frames: converted
frames followed by value-initialized zero samples. -/
def mkBlock (blockLength : Nat) (conv : List IQ) : List IQ :=
  conv ++ List.replicate (blockLength - conv.length) (0, 0)

/-- WaveFileSource::get_samples on the streaming path (file open, samples
pointer valid), given the short-read flag of waveReadFrames - which the
code only logs - and the converted frames conv (one entry per frame read,
so numRead = conv.length).  Reading zero frames is the only end-of-signal
condition: push_end, store m_eof_reached, return false.  Otherwise the
block is resized to m_block_length and filled. -/
def get_samples (blockLength : Nat) (_readErr : Bool) (conv : List IQ) :
    GetSamplesRes :=
  if conv.isEmpty then
    { retval := false, pushedEnd := true, eofSet := true, errorChanged := false,
      block := none }
  else
    { retval := true, pushedEnd := false, eofSet := false, errorChanged := false,
      block := some (mkBlock blockLength conv) }

/-- Events the worker thread run() performs on the IQ queue. -/
inductive SrcEv where
  | pushBlock (b : List IQ)
  | pushEndIQ
deriving DecidableEq

/-- The worker loop run() restricted to its reading iterations (iterations
that only sleep because the queue is above minfill are omitted, as is the
event-free stop-flag exit): each successful get_samples pushes its block;
a read of zero frames pushes the end marker inside get_samples and the
returned false breaks the loop, so nothing follows it. -/
def runEvents (blockLength : Nat) : List (List IQ) → List SrcEv
  | [] => []
  | conv :: rest =>
      if (get_samples blockLength false conv).retval then
        SrcEv.pushBlock (mkBlock blockLength conv) :: runEvents blockLength rest
      else [SrcEv.pushEndIQ]

/-- WaveFileSource::start bookkeeping: whether m_thread is nonzero, how
many worker threads were ever spawned, and the error string m_error. -/
structure SrcThread where
  running : Bool
  spawned : Nat
  m_error : String
deriving DecidableEq

/-- A WaveFileSource as constructed: m_thread zero, empty error string. -/
def freshSrc : SrcThread := ⟨false, 0, ""⟩

/-- WaveFileSource::start: spawn the worker thread only when m_thread is
zero; otherwise set the error string and return false. -/
def SrcThread.start (s : SrcThread) : Bool × SrcThread :=
  if s.running then (false, { s with m_error := "Source thread already started" })
  else (true, { s with running := true, spawned := s.spawned + 1 })

/-- The results of n successive calls to start on the same object. -/
def startN : Nat → SrcThread → List Bool × SrcThread
  | 0, s => ([], s)
  | n + 1, s =>
      let r := s.start
      let p := startN n r.2
      (r.1 :: p.1, p.2)

end NgSoftFm

namespace NgSoftFm

theorem qInv_init (α : Type) : QInv (QTrace.init α) := by
  refine ⟨rfl, ?_, rfl⟩
  intro blk h
  simp [QTrace.init, DataBuffer.init] at h

theorem qSizes_zero_queue_empty {α : Type} (b : DataBuffer α)
    (hne : ∀ blk ∈ b.m_queue, blk ≠ []) (h0 : qSizes b = 0) : b.m_queue = [] := by
  cases hq : b.m_queue with
  | nil => rfl
  | cons blk rest =>
      exfalso
      have hblk : blk ≠ [] := hne blk (by rw [hq]; exact List.mem_cons_self _ _)
      have : qSizes b = blk.length + (rest.map List.length).sum := by
        simp [qSizes, hq]
      have hlen : blk.length ≠ 0 := by
        intro hc
        exact hblk (List.eq_nil_of_length_eq_zero hc)
      omega

theorem sum_lengths_filter_nonempty {α : Type} (l : List (List α)) :
    ((l.filter (fun blk => !blk.isEmpty)).map List.length).sum
      = (l.map List.length).sum := by
  induction l with
  | nil => rfl
  | cons blk rest ih =>
      by_cases hb : blk.isEmpty
      · have hlen : blk.length = 0 := by
          cases blk with
          | nil => rfl
          | cons x xs => simp [List.isEmpty] at hb
        simp [List.filter_cons, hb, ih, hlen]
      · simp [List.filter_cons, hb, ih]

theorem qInv_step {α : Type} (t : QTrace α) (op : QOp α) (h : QInv t) :
    QInv (stepOp t op) := by
  obtain ⟨hlen, hne, hfifo⟩ := h
  cases op with
  | push s =>
      by_cases hs : s.isEmpty
      · have hsnil : s = [] := by
          cases s with
          | nil => rfl
          | cons x xs => simp [List.isEmpty] at hs
        refine ⟨?_, ?_, ?_⟩
        · simpa [stepOp, DataBuffer.push, hs] using hlen
        · simpa [stepOp, DataBuffer.push, hs] using hne
        · simp only [stepOp, DataBuffer.push, hs, if_pos]
          rw [List.filter_append]
          simpa [hsnil] using hfifo
      · refine ⟨?_, ?_, ?_⟩
        · simp [stepOp, DataBuffer.push, hs, qSizes] at hlen ⊢
          omega
        · intro blk hblk
          simp [stepOp, DataBuffer.push, hs] at hblk
          rcases hblk with hblk | hblk
          · exact hne blk hblk
          · subst hblk
            intro hc
            rw [hc] at hs
            simp at hs
        · simp [stepOp, DataBuffer.push, hs, List.filter_append, List.filter_cons]
          rw [← List.append_assoc, hfifo]
  | push_end =>
      exact ⟨by simpa [stepOp, DataBuffer.push_end, qSizes] using hlen,
        by simpa [stepOp, DataBuffer.push_end] using hne,
        by simpa [stepOp, DataBuffer.push_end] using hfifo⟩
  | pull =>
      cases hq : t.buf.m_queue with
      | nil =>
          by_cases he : t.buf.m_end_marked
          · refine ⟨?_, ?_, ?_⟩
            · simpa [stepOp, DataBuffer.pull, hq, he, qSizes] using hlen
            · intro blk hblk
              simp [stepOp, DataBuffer.pull, hq, he] at hblk
            · simp only [stepOp, DataBuffer.pull, hq, he, if_pos]
              rw [List.filter_append]
              simpa [hq] using hfifo
          · have hstep : stepOp t QOp.pull = t := by
              simp [stepOp, DataBuffer.pull, hq, he]
            rw [hstep]
            exact ⟨hlen, hne, hfifo⟩
      | cons blk rest =>
          have hblkne : blk ≠ [] := hne blk (by rw [hq]; exact List.mem_cons_self _ _)
          refine ⟨?_, ?_, ?_⟩
          · simp only [stepOp, DataBuffer.pull, hq, qSizes] at hlen ⊢
            simp [qSizes, hq] at hlen
            omega
          · intro b hb
            simp only [stepOp, DataBuffer.pull, hq] at hb
            exact hne b (by rw [hq]; exact List.mem_cons_of_mem _ hb)
          · simp only [stepOp, DataBuffer.pull, hq]
            rw [List.filter_append]
            have hbf : List.filter (fun b => !b.isEmpty) [blk] = [blk] := by
              simp [List.filter_cons]
              cases blk with
              | nil => exact absurd rfl hblkne
              | cons x xs => simp [List.isEmpty]
            rw [hbf, List.append_assoc]
            simpa [hq] using hfifo

theorem qInv_runOps {α : Type} (ops : List (QOp α)) : QInv (runOps ops) := by
  suffices h : ∀ t : QTrace α, QInv t → QInv (ops.foldl stepOp t) from
    h _ (qInv_init α)
  induction ops with
  | nil => intro t ht; exact ht
  | cons op rest ih =>
      intro t ht
      exact ih _ (qInv_step t op ht)

/-- C1: after any sequence of push, pull and push_end operations on a
DataBuffer, queued_samples equals the exact sum of the sizes of the pending
blocks; the nonempty blocks returned by pull so far, followed by the pending
blocks, are exactly the nonempty blocks handed to push so far (strict FIFO);
and once the end marker is reached the total number of samples pulled equals
the total number of samples pushed and the blocks were pulled in exactly the
order they were pushed. -/
theorem sampleQueue_invariant_fifo {α : Type} (ops : List (QOp α)) :
    (runOps ops).buf.queued_samples = qSizes (runOps ops).buf
    ∧ (runOps ops).pulled.filter (fun blk => !blk.isEmpty) ++ (runOps ops).buf.m_queue
        = (runOps ops).pushed.filter (fun blk => !blk.isEmpty)
    ∧ ((runOps ops).buf.pull_end_reached = true →
        ((runOps ops).pulled.map List.length).sum
            = ((runOps ops).pushed.map List.length).sum
        ∧ (runOps ops).pulled.filter (fun blk => !blk.isEmpty)
            = (runOps ops).pushed.filter (fun blk => !blk.isEmpty)) := by
  obtain ⟨hlen, hne, hfifo⟩ := qInv_runOps ops
  refine ⟨hlen, hfifo, ?_⟩
  intro hend
  simp only [DataBuffer.pull_end_reached, Bool.and_eq_true, beq_iff_eq] at hend
  obtain ⟨h0, hmark⟩ := hend
  have hq0 : qSizes (runOps ops).buf = 0 := by rw [← hlen]; exact h0
  have hqe : (runOps ops).buf.m_queue = [] := qSizes_zero_queue_empty _ hne hq0
  have hff : (runOps ops).pulled.filter (fun blk => !blk.isEmpty)
      = (runOps ops).pushed.filter (fun blk => !blk.isEmpty) := by
    rw [← hfifo, hqe]
    simp
  refine ⟨?_, hff⟩
  calc ((runOps ops).pulled.map List.length).sum
      = (((runOps ops).pulled.filter (fun blk => !blk.isEmpty)).map List.length).sum :=
        (sum_lengths_filter_nonempty _).symm
    _ = (((runOps ops).pushed.filter (fun blk => !blk.isEmpty)).map List.length).sum := by
        rw [hff]
    _ = ((runOps ops).pushed.map List.length).sum := sum_lengths_filter_nonempty _

/-- C1 witness: the sequence push [1,2]; push_end; pull; pull drains the
queue; the invariant and the FIFO consequences hold there. -/
theorem sampleQueue_invariant_fifo_witness :
    (runOps wopsC1).buf.queued_samples = qSizes (runOps wopsC1).buf
    ∧ ((runOps wopsC1).pulled.map List.length).sum
        = ((runOps wopsC1).pushed.map List.length).sum
    ∧ (runOps wopsC1).pulled.filter (fun blk => !blk.isEmpty)
        = (runOps wopsC1).pushed.filter (fun blk => !blk.isEmpty) :=
  ⟨(sampleQueue_invariant_fifo wopsC1).1,
   ((sampleQueue_invariant_fifo wopsC1).2.2 (by decide)).1,
   ((sampleQueue_invariant_fifo wopsC1).2.2 (by decide)).2⟩

/-- C2: pull removes and returns the head block unmodified when the queue is
nonempty, with queued_samples decreased by exactly that block size (the block
size never exceeds queued_samples when the counter invariant holds); on an
empty queue with the end marker set it returns an empty block and leaves the
buffer unchanged; on an empty queue without the end marker the caller blocks,
modelled as the result none. -/
theorem pull_spec {α : Type} (b : DataBuffer α) :
    (∀ blk rest, b.m_queue = blk :: rest →
        b.pull = some (blk, ⟨b.m_qlen - blk.length, b.m_end_marked, rest⟩)
        ∧ (b.m_qlen = qSizes b →
            blk.length ≤ b.queued_samples
            ∧ (⟨b.m_qlen - blk.length, b.m_end_marked, rest⟩ : DataBuffer α).queued_samples
                = b.queued_samples - blk.length))
    ∧ (b.m_queue = [] → b.m_end_marked = true → b.pull = some ([], b))
    ∧ (b.m_queue = [] → b.m_end_marked = false → b.pull = none) := by
  refine ⟨?_, ?_, ?_⟩
  · intro blk rest hq
    refine ⟨by simp [DataBuffer.pull, hq], ?_⟩
    intro hlen
    have hsum : qSizes b = blk.length + (rest.map List.length).sum := by
      simp [qSizes, hq]
    refine ⟨?_, rfl⟩
    simp only [DataBuffer.queued_samples]
    omega
  · intro hq he
    simp [DataBuffer.pull, hq, he]
  · intro hq he
    simp [DataBuffer.pull, hq, he]

/-- C2 witness: pull on a buffer holding one block of two samples returns
that block and leaves zero queued samples; pull on a drained end-marked
buffer returns the empty block; pull on a fresh buffer blocks. -/
theorem pull_spec_witness :
    (⟨2, false, [[5, 6]]⟩ : DataBuffer Nat).pull = some ([5, 6], ⟨0, false, []⟩)
    ∧ [5, 6].length ≤ (⟨2, false, [[5, 6]]⟩ : DataBuffer Nat).queued_samples
    ∧ (⟨0, true, []⟩ : DataBuffer Nat).pull = some ([], ⟨0, true, []⟩)
    ∧ (⟨0, false, []⟩ : DataBuffer Nat).pull = none :=
  ⟨((pull_spec (⟨2, false, [[5, 6]]⟩ : DataBuffer Nat)).1 [5, 6] [] rfl).1,
   ((((pull_spec (⟨2, false, [[5, 6]]⟩ : DataBuffer Nat)).1 [5, 6] [] rfl).2) (by decide)).1,
   (pull_spec (⟨0, true, []⟩ : DataBuffer Nat)).2.1 rfl rfl,
   (pull_spec (⟨0, false, []⟩ : DataBuffer Nat)).2.2 rfl rfl⟩

theorem loopEvs_exits (th ob : Nat) :
    ∀ (obs : List IterObs) (k : Nat) (w : Bool),
      (loopEvs th ob k w obs).2 = terminates obs := by
  intro obs
  induction obs with
  | nil => intro k w; simp [loopEvs, terminates]
  | cons o rest ih =>
      intro k w
      by_cases hs : o.stopFlag
      · simp [loopEvs, terminates, hs]
      · by_cases hp : o.pulled.isEmpty
        · simp [loopEvs, terminates, hs, hp]
        · simp [loopEvs, terminates, hs, hp, ih]

theorem deliveredIdx_loopEvs (th ob : Nat) :
    ∀ (obs : List IterObs) (k : Nat) (w : Bool),
      deliveredIdx (loopEvs th ob k w obs).1
        = (wrapSeq k (consumed obs)).filter (fun i => decide (0 < i)) := by
  intro obs
  induction obs with
  | nil => intro k w; simp [loopEvs, consumed, deliveredIdx, wrapSeq]
  | cons o rest ih =>
      intro k w
      by_cases hs : o.stopFlag
      · simp [loopEvs, consumed, hs, deliveredIdx, wrapSeq]
      · by_cases hp : o.pulled.isEmpty
        · simp only [loopEvs, hs, hp, if_neg, if_pos, Bool.false_eq_true,
            not_false_eq_true, consumed, deliveredIdx, wrapSeq]
          split <;> simp [deliverIdxOf]
        · simp only [loopEvs, hs, hp, Bool.false_eq_true, not_false_eq_true,
            if_neg, consumed, deliveredIdx, List.filterMap_append]
          have h1 : List.filterMap deliverIdxOf
              (if (!w && decide (th < o.queued)) = true then [Ev.warn k] else []) = [] := by
            split <;> simp [deliverIdxOf]
          have h2 : List.filterMap deliverIdxOf
              (if 0 < k then
                [if 0 < ob then Ev.deliverBuffered k else Ev.deliverDirect k]
               else []) = if 0 < k then [k] else [] := by
            by_cases hk : 0 < k
            · by_cases hb : 0 < ob <;> simp [hk, hb, deliverIdxOf]
            · simp [hk]
          rw [h1, h2, wrapSeq, List.filter_cons]
          have h3 := ih ((k + 1) % 4294967296) (w || (!w && decide (th < o.queued)))
          simp only [deliveredIdx] at h3
          rw [h3]
          by_cases hk : 0 < k
          · simp [hk]
          · simp [hk]

theorem wrapSeq_eq_range (n : Nat) :
    ∀ k : Nat, k < 4294967296 →
      wrapSeq k n = (List.range n).map (fun i => (k + i) % 4294967296) := by
  induction n with
  | zero => intro k hk; simp [wrapSeq]
  | succ n ih =>
      intro k hk
      rw [List.range_succ_eq_map, wrapSeq,
        ih ((k + 1) % 4294967296) (Nat.mod_lt _ (by norm_num))]
      simp only [List.map_cons, List.map_map]
      congr 1
      · omega
      · apply List.map_congr_left
        intro i hi
        simp only [Function.comp_apply, Nat.succ_eq_add_one]
        omega

theorem warnFilter_loopEvs (th ob : Nat) :
    ∀ (obs : List IterObs) (k : Nat) (w : Bool),
      (loopEvs th ob k w obs).1.filter isWarnEv
        = if w then [] else ((firstWarn th k obs).map Ev.warn).toList := by
  intro obs
  induction obs with
  | nil => intro k w; cases w <;> simp [loopEvs, firstWarn]
  | cons o rest ih =>
      intro k w
      by_cases hs : o.stopFlag
      · cases w <;> simp [loopEvs, firstWarn, hs]
      · have hd : List.filter isWarnEv
            (if 0 < k then
              [if 0 < ob then Ev.deliverBuffered k else Ev.deliverDirect k]
             else []) = [] := by
          by_cases hk : 0 < k
          · by_cases hb : 0 < ob <;> simp [hk, hb, isWarnEv]
          · simp [hk]
        by_cases ht : th < o.queued
        · by_cases hp : o.pulled.isEmpty
          · cases w <;> simp [loopEvs, firstWarn, hs, ht, hp, isWarnEv]
          · cases w <;>
              simp [loopEvs, firstWarn, hs, ht, hp, isWarnEv, ih, hd,
                List.filter_append]
        · by_cases hp : o.pulled.isEmpty
          · cases w <;> simp [loopEvs, firstWarn, hs, ht, hp, isWarnEv]
          · cases w <;>
              simp [loopEvs, firstWarn, hs, ht, hp, isWarnEv, ih, hd,
                List.filter_append]

theorem loopEvs_no_pushEnd (th ob : Nat) :
    ∀ (obs : List IterObs) (k : Nat) (w : Bool),
      (loopEvs th ob k w obs).1.countP (fun e => e == Ev.pushEndAudio) = 0 := by
  intro obs
  induction obs with
  | nil => intro k w; simp [loopEvs]
  | cons o rest ih =>
      intro k w
      by_cases hs : o.stopFlag
      · simp [loopEvs, hs]
      · by_cases hp : o.pulled.isEmpty
        · simp only [loopEvs, hs, hp, Bool.false_eq_true, not_false_eq_true, if_neg, if_pos]
          split <;> simp
        · simp only [loopEvs, hs, hp, Bool.false_eq_true, not_false_eq_true, if_neg,
            List.countP_append]
          rw [ih ((k + 1) % 4294967296) (w || (!w && decide (th < o.queued)))]
          have h1 : List.countP (fun e => e == Ev.pushEndAudio)
              (if (!w && decide (th < o.queued)) = true then [Ev.warn k] else []) = 0 := by
            split <;> simp
          have h2 : List.countP (fun e => e == Ev.pushEndAudio)
              (if 0 < k then
                [if 0 < ob then Ev.deliverBuffered k else Ev.deliverDirect k]
               else []) = 0 := by
            by_cases hk : 0 < k
            · by_cases hb : 0 < ob <;> simp [hk, hb]
            · simp [hk]
          omega

theorem deliveredIdx_mainRun (ifrate ob : Nat) (obs : List IterObs) :
    deliveredIdx (mainRun ifrate ob obs)
      = ((List.range (consumed obs)).map (fun i => i % 4294967296)).filter
          (fun i => decide (0 < i)) := by
  have htail : deliveredIdx
      (if (loopEvs (10 * ifrate) ob 0 false obs).2 && decide (0 < ob) then
        [Ev.pushEndAudio, Ev.joinSink]
       else []) = [] := by
    split <;> simp [deliveredIdx, deliverIdxOf]
  simp only [mainRun, deliveredIdx, List.filterMap_append]
  simp only [deliveredIdx] at htail
  rw [htail, List.append_nil]
  have h := deliveredIdx_loopEvs (10 * ifrate) ob obs 0 false
  simp only [deliveredIdx] at h
  rw [h, wrapSeq_eq_range (consumed obs) 0 (by norm_num)]
  simp

/-- C4 (amended): in every run of the main decode loop the delivered blocks
(buffered push or direct write) are exactly the pulled blocks whose wrapping
32-bit unsigned block counter is nonzero: block 0 is never delivered, every
later pulled block is delivered except each 2^32-nd one, where the counter
has wrapped back to 0; and the loop exits exactly when the stop flag is
observed or pull returns an empty block. -/
theorem first_block_discarded (ifrate ob : Nat) (obs : List IterObs) :
    deliveredIdx (mainRun ifrate ob obs)
        = ((List.range (consumed obs)).map (fun i => i % 4294967296)).filter
            (fun i => decide (0 < i))
    ∧ (loopEvs (10 * ifrate) ob 0 false obs).2 = terminates obs :=
  ⟨deliveredIdx_mainRun ifrate ob obs, loopEvs_exits (10 * ifrate) ob obs 0 false⟩

theorem consumed_longObs_aux :
    ∀ n : Nat,
      consumed (List.replicate n (⟨false, 0, [((1 : ℚ), (0 : ℚ))]⟩ : IterObs)) = n := by
  intro n
  induction n with
  | zero => simp [consumed]
  | succ n ih =>
      rw [List.replicate_succ]
      simp [consumed, ih]

theorem mod_filter_range_length :
    (((List.range 4294967297).map (fun i => i % 4294967296)).filter
        (fun i => decide (0 < i))).length = 4294967295 := by
  rw [show (4294967297 : Nat) = 4294967296 + 1 by norm_num, List.range_succ,
    List.map_append, List.filter_append]
  have h2 : (List.range 4294967296).map (fun i => i % 4294967296)
      = List.range 4294967296 := by
    have hcg : ∀ i ∈ List.range 4294967296, i % 4294967296 = id i := by
      intro i hi
      rw [List.mem_range] at hi
      exact Nat.mod_eq_of_lt hi
    rw [List.map_congr_left hcg, List.map_id]
  rw [h2]
  have h3 : List.range 4294967296 = 0 :: (List.range 4294967295).map Nat.succ := by
    rw [show (4294967296 : Nat) = 4294967295 + 1 by norm_num, List.range_succ_eq_map]
  rw [h3]
  have h4 : List.filter (fun i => decide (0 < i))
      ((List.range 4294967295).map Nat.succ)
      = (List.range 4294967295).map Nat.succ := by
    rw [List.filter_eq_self]
    intro a ha
    rw [List.mem_map] at ha
    obtain ⟨b, _, rfl⟩ := ha
    simp
  simp [List.filter_cons, h4]

/-- C4 counterexample: in a traced run of 2^32 + 1 pulled nonempty blocks
(no stop, no backlog) the unsigned int counter wraps back to 0 on the
2^32-nd block, so only 2^32 - 1 delivery events occur although 2^32 pulled
blocks have index at least 1: the audio of a later block is not delivered,
refuting the claim as stated. -/
theorem first_block_discarded_cex :
    consumed longObs = 4294967297
    ∧ (deliveredIdx (mainRun 0 0 longObs)).length = 4294967295
    ∧ (deliveredIdx (mainRun 0 0 longObs)).length + 1 < consumed longObs := by
  have hc : consumed longObs = 4294967297 := consumed_longObs_aux 4294967297
  have hd : (deliveredIdx (mainRun 0 0 longObs)).length = 4294967295 := by
    rw [deliveredIdx_mainRun 0 0 longObs, hc, mod_filter_range_length]
  exact ⟨hc, hd, by rw [hc, hd]; norm_num⟩

/-- C5: the backlog warning is emitted at most once per run, and the warning
events of a run are exactly one warning at the first reached iteration whose
queued sample count exceeds 10 * ifrate (none if no such iteration is
reached). -/
theorem backlog_warning_one_shot (ifrate ob : Nat) (obs : List IterObs) :
    (mainRun ifrate ob obs).countP isWarnEv ≤ 1
    ∧ (mainRun ifrate ob obs).filter isWarnEv
        = ((firstWarn (10 * ifrate) 0 obs).map Ev.warn).toList := by
  have htail : List.filter isWarnEv
      (if (loopEvs (10 * ifrate) ob 0 false obs).2 && decide (0 < ob) then
        [Ev.pushEndAudio, Ev.joinSink]
       else []) = [] := by
    split <;> simp [isWarnEv]
  have hmain : (mainRun ifrate ob obs).filter isWarnEv
      = ((firstWarn (10 * ifrate) 0 obs).map Ev.warn).toList := by
    simp only [mainRun, List.filter_append]
    rw [htail, List.append_nil]
    have h := warnFilter_loopEvs (10 * ifrate) ob obs 0 false
    simpa using h
  refine ⟨?_, hmain⟩
  rw [List.countP_eq_length_filter, hmain]
  cases firstWarn (10 * ifrate) 0 obs <;> simp

/-- C3 (amended): in every run in which the buffered-output sink thread was
started (outputbuf_samples > 0) and the main loop exits (stop flag observed
or empty block pulled), the demod thread pushes the end marker on the audio
output queue after the loop events and before joining the sink thread; the
loop itself never pushes that end marker. -/
theorem demod_push_end_buffered (ifrate ob : Nat) (obs : List IterObs)
    (hob : 0 < ob) (hterm : terminates obs = true) :
    mainRun ifrate ob obs
        = (loopEvs (10 * ifrate) ob 0 false obs).1 ++ [Ev.pushEndAudio, Ev.joinSink]
    ∧ Ev.pushEndAudio ∈ mainRun ifrate ob obs
    ∧ (loopEvs (10 * ifrate) ob 0 false obs).1.countP (fun e => e == Ev.pushEndAudio)
        = 0 := by
  have h2 : (loopEvs (10 * ifrate) ob 0 false obs).2 = true := by
    rw [loopEvs_exits]
    exact hterm
  have hmain : mainRun ifrate ob obs
      = (loopEvs (10 * ifrate) ob 0 false obs).1 ++ [Ev.pushEndAudio, Ev.joinSink] := by
    simp [mainRun, h2, hob]
  refine ⟨hmain, ?_, loopEvs_no_pushEnd (10 * ifrate) ob obs 0 false⟩
  rw [hmain]
  exact List.mem_append_right _ (List.mem_cons_self _ _)

/-- C3 witness: a buffered run (outputbuf_samples = 1) whose single iteration
pulls the end-of-stream block: the end marker is pushed after the loop. -/
theorem demod_push_end_buffered_witness :
    mainRun 0 1 [⟨false, 0, []⟩]
        = (loopEvs 0 1 0 false [⟨false, 0, []⟩]).1 ++ [Ev.pushEndAudio, Ev.joinSink]
    ∧ Ev.pushEndAudio ∈ mainRun 0 1 [⟨false, 0, []⟩]
    ∧ (loopEvs 0 1 0 false [⟨false, 0, []⟩]).1.countP (fun e => e == Ev.pushEndAudio)
        = 0 :=
  demod_push_end_buffered 0 1 [⟨false, 0, []⟩] (by decide) (by decide)

/-- C3 counterexample: with outputbuf_samples = 0 (direct-write mode, a run
main() permits, for example WAV output with no -b flag) the main loop
terminates on the end-of-stream block yet no end marker is ever pushed on
the audio output queue: the claim as stated over every run is false. -/
theorem demod_push_end_cex :
    terminates [⟨false, 0, []⟩] = true
    ∧ mainRun 0 0 [⟨false, 0, []⟩] = ([] : List Ev)
    ∧ (mainRun 0 0 [⟨false, 0, []⟩]).contains Ev.pushEndAudio = false := by
  refine ⟨rfl, rfl, rfl⟩

/-- C6 (amended): configure succeeds exactly when the header read reports
success (result below 10), the channel count is exactly 2, and the declared
format is PCM16 (tag 1, 16 bits), float32 (tag 3, 32 bits) or PCM24 (tag 1,
24 bits); every failure returns false with the file closed.  No sample-rate
check is performed, so a header declaring sample rate 0 with a supported
format is accepted. -/
theorem configure_characterization (readRes : Int) (h : WavHeader) (tf : Nat)
    (bl : Int) :
    (configure readRes h tf bl).isSome = true
      ↔ (readRes < 10 ∧ h.nchan = 2
          ∧ ((h.fmttag = 1 ∧ h.bps = 16) ∨ (h.fmttag = 3 ∧ h.bps = 32)
              ∨ (h.fmttag = 1 ∧ h.bps = 24))) := by
  unfold configure
  split_ifs with h1 h2 h3 h4 h5 <;> simp_all

/-- C6 counterexample: a header declaring sample rate 0, 2 channels and
PCM16 passes the modelled header read and configure accepts it, so
configure does not fail for sample rate 0. -/
theorem configure_srate_zero_cex :
    hdrRate0.srate = 0
    ∧ (configure (waveReadHeaderRes hdrRate0) hdrRate0 0 4096).isSome = true
    ∧ configure (waveReadHeaderRes hdrRate0) hdrRate0 0 4096
        = some ⟨0, 4096, 96000000, 0, true⟩ := by
  refine ⟨rfl, rfl, rfl⟩

theorem clampRaw_bounds (bl : Int) : 1024 ≤ clampRaw bl ∧ clampRaw bl ≤ 65536 := by
  unfold clampRaw
  split_ifs <;> omega

/-- C9: for every requested blklen, the stored block length is in
[1024, 65536] and is a multiple of 1024; configure stores exactly that
value; and every block get_samples builds for the pushing caller holds
exactly that many IQ samples, even when the read returned fewer frames. -/
theorem block_length_clamped (bl : Int) (conv : List IQ) (st : ConfigState)
    (readRes : Int) (h : WavHeader) (tf : Nat) :
    1024 ≤ clampBlockLength bl
    ∧ clampBlockLength bl ≤ 65536
    ∧ clampBlockLength bl % 1024 = 0
    ∧ (configure readRes h tf bl = some st →
        st.m_block_length = clampBlockLength bl)
    ∧ (conv ≠ [] → conv.length ≤ (clampBlockLength bl).toNat →
        (get_samples (clampBlockLength bl).toNat false conv).block.map List.length
          = some (clampBlockLength bl).toNat) := by
  obtain ⟨hlo, hhi⟩ := clampRaw_bounds bl
  refine ⟨?_, ?_, ?_, ?_, ?_⟩
  · unfold clampBlockLength
    omega
  · unfold clampBlockLength
    omega
  · unfold clampBlockLength
    omega
  · intro heq
    unfold configure at heq
    split_ifs at heq <;> simp_all <;> rw [← heq]
  · intro hne hle
    have hnem : conv.isEmpty = false := by
      cases conv with
      | nil => exact absurd rfl hne
      | cons x xs => rfl
    simp [get_samples, hnem, mkBlock]
    omega

/-- C9 witness: requested blklen 5000 is stored as 4096; a one-frame read
still yields a 4096-sample block. -/
theorem block_length_clamped_witness :
    1024 ≤ clampBlockLength 5000
    ∧ clampBlockLength 5000 ≤ 65536
    ∧ clampBlockLength 5000 % 1024 = 0
    ∧ (⟨0, 4096, 96000000, 0, true⟩ : ConfigState).m_block_length
        = clampBlockLength 5000
    ∧ (get_samples (clampBlockLength 5000).toNat false
          [((0 : ℚ), (0 : ℚ))]).block.map List.length
        = some (clampBlockLength 5000).toNat :=
  ⟨(block_length_clamped 5000 [((0 : ℚ), (0 : ℚ))] ⟨0, 4096, 96000000, 0, true⟩
      0 hdrRate0 0).1,
   (block_length_clamped 5000 [((0 : ℚ), (0 : ℚ))] ⟨0, 4096, 96000000, 0, true⟩
      0 hdrRate0 0).2.1,
   (block_length_clamped 5000 [((0 : ℚ), (0 : ℚ))] ⟨0, 4096, 96000000, 0, true⟩
      0 hdrRate0 0).2.2.1,
   (block_length_clamped 5000 [((0 : ℚ), (0 : ℚ))] ⟨0, 4096, 96000000, 0, true⟩
      0 hdrRate0 0).2.2.2.1 rfl,
   (block_length_clamped 5000 [((0 : ℚ), (0 : ℚ))] ⟨0, 4096, 96000000, 0, true⟩
      0 hdrRate0 0).2.2.2.2 (by decide) (by decide)⟩

theorem ratDiv_range (x d : ℚ) (hd : 0 < d) (h1 : -d ≤ x) (h2 : x ≤ d) :
    -1 ≤ x / d ∧ x / d ≤ 1 := by
  constructor
  · rw [le_div_iff₀ hd]
    linarith
  · rw [div_le_one hd]
    exact h2

theorem pcm24val_range (b0 b1 b2 : Nat) (h0 : b0 < 256) (h1 : b1 < 256)
    (h2 : b2 < 256) :
    -2147483648 ≤ pcm24val b0 b1 b2 ∧ pcm24val b0 b1 b2 ≤ 2147483647 := by
  unfold pcm24val
  split_ifs with hu <;> omega

/-- C7 (amended): for the PCM16 and PCM24 input formats every IQ sample the
source emits has both components in [-1, +1]; the float32 path copies the
float values of the file unchanged, so its output is in [-1, +1] only when
the file contents are. -/
theorem iq_sample_range (fs16 : List (Int × Int)) (fs24 : List Pcm24Frame)
    (fs32 : List IQ) :
    (fs16.all int16InRange = true → (pcm16conv fs16).all iqInRange = true)
    ∧ (fs24.all bytesInRange = true → (pcm24conv fs24).all iqInRange = true)
    ∧ f32conv fs32 = fs32 := by
  refine ⟨?_, ?_, by simp [f32conv]⟩
  · intro hall
    rw [List.all_eq_true] at hall ⊢
    intro q hq
    rw [pcm16conv, List.mem_map] at hq
    obtain ⟨p, hp, rfl⟩ := hq
    have hrange := hall p hp
    simp only [int16InRange, Bool.and_eq_true, decide_eq_true_eq] at hrange
    obtain ⟨⟨⟨ha, hb⟩, hc⟩, hd⟩ := hrange
    have hi := ratDiv_range (p.1 : ℚ) 32768 (by norm_num)
      (by exact_mod_cast ha)
      (by have : (p.1 : ℚ) ≤ 32767 := by exact_mod_cast hb
          linarith)
    have hq2 := ratDiv_range (p.2 : ℚ) 32768 (by norm_num)
      (by exact_mod_cast hc)
      (by have : (p.2 : ℚ) ≤ 32767 := by exact_mod_cast hd
          linarith)
    simp only [iqInRange, Bool.and_eq_true, decide_eq_true_eq]
    exact ⟨⟨⟨hi.1, hi.2⟩, hq2.1⟩, hq2.2⟩
  · intro hall
    rw [List.all_eq_true] at hall ⊢
    intro q hq
    rw [pcm24conv, List.mem_map] at hq
    obtain ⟨f, hf, rfl⟩ := hq
    have hrange := hall f hf
    simp only [bytesInRange, Bool.and_eq_true, decide_eq_true_eq] at hrange
    obtain ⟨⟨⟨⟨⟨h0, h1⟩, h2⟩, h3⟩, h4⟩, h5⟩ := hrange
    obtain ⟨hia, hib⟩ := pcm24val_range f.i0 f.i1 f.i2 h0 h1 h2
    obtain ⟨hqa, hqb⟩ := pcm24val_range f.q0 f.q1 f.q2 h3 h4 h5
    have hi := ratDiv_range (pcm24val f.i0 f.i1 f.i2 : ℚ) 2147483648 (by norm_num)
      (by exact_mod_cast hia)
      (by have : (pcm24val f.i0 f.i1 f.i2 : ℚ) ≤ 2147483647 := by exact_mod_cast hib
          linarith)
    have hq2 := ratDiv_range (pcm24val f.q0 f.q1 f.q2 : ℚ) 2147483648 (by norm_num)
      (by exact_mod_cast hqa)
      (by have : (pcm24val f.q0 f.q1 f.q2 : ℚ) ≤ 2147483647 := by exact_mod_cast hqb
          linarith)
    simp only [iqInRange, Bool.and_eq_true, decide_eq_true_eq]
    exact ⟨⟨⟨hi.1, hi.2⟩, hq2.1⟩, hq2.2⟩

/-- C7 witness: extreme int16 and PCM24 byte values stay in [-1, +1]; the
float32 path passes a concrete in-range block through unchanged. -/
theorem iq_sample_range_witness :
    (pcm16conv [((32767 : Int), (-32768 : Int))]).all iqInRange = true
    ∧ (pcm24conv [⟨0, 0, 128, 255, 255, 255⟩]).all iqInRange = true
    ∧ f32conv [((1 : ℚ) / 2, (0 : ℚ))] = [((1 : ℚ) / 2, (0 : ℚ))] :=
  ⟨(iq_sample_range [((32767 : Int), (-32768 : Int))] [] []).1 (by decide),
   (iq_sample_range [] [⟨0, 0, 128, 255, 255, 255⟩] []).2.1 (by decide),
   (iq_sample_range [] [] [((1 : ℚ) / 2, (0 : ℚ))]).2.2⟩

/-- C7 counterexample: a float32 WAV file holding the value 2.0 makes the
source emit an IQ sample with real part 2, outside [-1, +1]: the range
claim is false for the float32 format. -/
theorem iq_sample_range_cex :
    f32conv [((2 : ℚ), (0 : ℚ))] = [((2 : ℚ), (0 : ℚ))]
    ∧ (f32conv [((2 : ℚ), (0 : ℚ))]).all iqInRange = false := by
  refine ⟨rfl, by decide⟩

theorem runEvents_stops_at_eof (bl : Nat) :
    ∀ convs rest : List (List IQ), (∀ c ∈ convs, c ≠ []) →
      runEvents bl (convs ++ [] :: rest)
        = convs.map (fun c => SrcEv.pushBlock (mkBlock bl c)) ++ [SrcEv.pushEndIQ] := by
  intro convs
  induction convs with
  | nil =>
      intro rest _
      simp [runEvents, get_samples]
  | cons c cs ih =>
      intro rest hne
      have hc : c ≠ [] := hne c (List.mem_cons_self _ _)
      have hcm : c.isEmpty = false := by
        cases c with
        | nil => exact absurd rfl hc
        | cons x xs => rfl
      have hcs : ∀ b ∈ cs, b ≠ [] := fun b hb => hne b (List.mem_cons_of_mem _ hb)
      simp [runEvents, get_samples, hcm, ih rest hcs]

/-- C8 (amended): get_samples treats only a read of zero frames as
end-of-signal: it then pushes the end marker on the IQ queue, stores the
eof flag, returns false - without touching the error string - and, since
run() breaks on the false return, no further block is ever pushed.  A
short read that still delivers frames is not end-of-signal: get_samples
returns true with a full-length block and pushes no end marker.  The end
marker propagates downstream as the empty block that pull returns. -/
theorem wav_eof_end_of_stream (blockLength : Nat) (readErr : Bool)
    (conv : List IQ) (convs rest : List (List IQ)) :
    get_samples blockLength readErr []
        = { retval := false, pushedEnd := true, eofSet := true,
            errorChanged := false, block := none }
    ∧ (conv ≠ [] →
        get_samples blockLength readErr conv
          = { retval := true, pushedEnd := false, eofSet := false,
              errorChanged := false, block := some (mkBlock blockLength conv) })
    ∧ ((∀ c ∈ convs, c ≠ []) →
        runEvents blockLength (convs ++ [] :: rest)
          = convs.map (fun c => SrcEv.pushBlock (mkBlock blockLength c))
              ++ [SrcEv.pushEndIQ])
    ∧ (DataBuffer.init IQ).push_end.pull = some ([], (DataBuffer.init IQ).push_end) := by
  refine ⟨rfl, ?_, runEvents_stops_at_eof blockLength convs rest, rfl⟩
  intro hne
  have hnem : conv.isEmpty = false := by
    cases conv with
    | nil => exact absurd rfl hne
    | cons x xs => rfl
  simp [get_samples, hnem]

/-- C8 witness: with block length 2, a one-frame read yields a pushed
full block; the stream with one good read then a zero read pushes exactly
that block followed by the end marker; an end-marked empty queue pulls the
empty block. -/
theorem wav_eof_end_of_stream_witness :
    get_samples 2 true ([] : List IQ)
        = { retval := false, pushedEnd := true, eofSet := true,
            errorChanged := false, block := none }
    ∧ get_samples 2 true [((1 : ℚ), (0 : ℚ))]
        = { retval := true, pushedEnd := false, eofSet := false,
            errorChanged := false, block := some (mkBlock 2 [((1 : ℚ), (0 : ℚ))]) }
    ∧ runEvents 2 ([[((1 : ℚ), (0 : ℚ))]] ++ [] :: [[((3 : ℚ), (0 : ℚ))]])
        = [SrcEv.pushBlock (mkBlock 2 [((1 : ℚ), (0 : ℚ))]), SrcEv.pushEndIQ]
    ∧ (DataBuffer.init IQ).push_end.pull = some ([], (DataBuffer.init IQ).push_end) :=
  ⟨(wav_eof_end_of_stream 2 true [((1 : ℚ), (0 : ℚ))] [[((1 : ℚ), (0 : ℚ))]]
      [[((3 : ℚ), (0 : ℚ))]]).1,
   (wav_eof_end_of_stream 2 true [((1 : ℚ), (0 : ℚ))] [[((1 : ℚ), (0 : ℚ))]]
      [[((3 : ℚ), (0 : ℚ))]]).2.1 (by decide),
   (wav_eof_end_of_stream 2 true [((1 : ℚ), (0 : ℚ))] [[((1 : ℚ), (0 : ℚ))]]
      [[((3 : ℚ), (0 : ℚ))]]).2.2.1 (by decide),
   (wav_eof_end_of_stream 2 true [((1 : ℚ), (0 : ℚ))] [[((1 : ℚ), (0 : ℚ))]]
      [[((3 : ℚ), (0 : ℚ))]]).2.2.2⟩

/-- C8 counterexample: a short read (1 frame delivered of 1024 requested,
short-read error flagged) is not treated as claimed: get_samples returns
true, pushes no end marker and leaves the error string untouched. -/
theorem wav_short_read_cex :
    (get_samples 1024 true (pcm16conv [((5 : Int), (-7 : Int))])).retval = true
    ∧ (get_samples 1024 true (pcm16conv [((5 : Int), (-7 : Int))])).pushedEnd = false
    ∧ (get_samples 1024 true (pcm16conv [((5 : Int), (-7 : Int))])).errorChanged
        = false := by
  refine ⟨rfl, rfl, rfl⟩

theorem startN_running (n : Nat) :
    ∀ s : SrcThread, s.running = true →
      (startN n s).1 = List.replicate n false
      ∧ (startN n s).2.spawned = s.spawned
      ∧ (startN n s).2.running = true := by
  induction n with
  | zero =>
      intro s h
      simp [startN]
      exact h
  | succ n ih =>
      intro s h
      have hstart : s.start
          = (false, { s with m_error := "Source thread already started" }) := by
        simp [SrcThread.start, h]
      obtain ⟨h1, h2, h3⟩ := ih { s with m_error := "Source thread already started" } h
      simp [startN, hstart, h1, h2, h3, List.replicate_succ]

/-- C10: start succeeds at most once: on a fresh source the first call
returns true and spawns the worker; any call while the thread exists
returns false, sets the error string and spawns nothing; n+1 successive
calls on a fresh source return true then only false, with exactly one
thread ever spawned. -/
theorem start_at_most_once :
    (freshSrc.start).1 = true
    ∧ (freshSrc.start).2.running = true
    ∧ (∀ s : SrcThread, s.running = true →
        (s.start).1 = false
        ∧ (s.start).2.m_error = "Source thread already started"
        ∧ (s.start).2.spawned = s.spawned
        ∧ (s.start).2.running = true)
    ∧ (∀ n : Nat,
        (startN (n + 1) freshSrc).1 = true :: List.replicate n false
        ∧ (startN (n + 1) freshSrc).2.spawned = 1) := by
  refine ⟨rfl, rfl, ?_, ?_⟩
  · intro s h
    simp [SrcThread.start, h]
  · intro n
    have hfresh : freshSrc.start = (true, ⟨true, 1, ""⟩) := rfl
    obtain ⟨h1, h2, h3⟩ := startN_running n (⟨true, 1, ""⟩ : SrcThread) rfl
    simp [startN, hfresh, h1, h2]

/-- C10 witness: the first call on a fresh source succeeds; a call on a
started source fails with the recorded error; three successive calls give
true, false, false and one spawned thread. -/
theorem start_at_most_once_witness :
    (freshSrc.start).1 = true
    ∧ ((⟨true, 1, ""⟩ : SrcThread).start).1 = false
    ∧ ((⟨true, 1, ""⟩ : SrcThread).start).2.m_error = "Source thread already started"
    ∧ (startN 3 freshSrc).1 = true :: List.replicate 2 false
    ∧ (startN 3 freshSrc).2.spawned = 1 :=
  ⟨start_at_most_once.1,
   (start_at_most_once.2.2.1 (⟨true, 1, ""⟩ : SrcThread) rfl).1,
   (start_at_most_once.2.2.1 (⟨true, 1, ""⟩ : SrcThread) rfl).2.1,
   (start_at_most_once.2.2.2 2).1,
   (start_at_most_once.2.2.2 2).2⟩

end NgSoftFm
